import Mathlib

/-!
Shallow embedding of the video-editing pipeline (auto_edit.py) and the
job/session state store (update/src/state_store.py), together with proofs
about chunk calculation, checksum invalidation, job status transitions,
retry selection, session TTL classification, backoff delays and the
error-handling behaviour of the store.

Durations and timestamps are modelled as rationals; machine file contents
and identifiers as strings; impure inputs (clock readings, random jitter
draws, success or failure of external processes and of file writes) are
passed in as explicit parameters.
-/

/-! ## auto_edit.py: chunk model -/

/-- Mirror of the `ChunkInfo` dataclass of auto_edit.py. -/
structure ChunkInfo where
  chunk_id : Nat
  start_time : ℚ
  end_time : ℚ
  duration : ℚ
  input_path : String
  output_path : String
  processed : Bool
  checksum : Option String
deriving Repr, DecidableEq

/-- Zero padding of a chunk id, mirroring the Python format `chunk_id:03d`
for the ids that occur in practice. -/
def pad3 (n : Nat) : String :=
  if n < 10 then "00" ++ toString n
  else if n < 100 then "0" ++ toString n
  else toString n

/-- Input path of a chunk inside the chunks directory. -/
def chunkInputPath (chunksDir : String) (id : Nat) : String :=
  chunksDir ++ "/chunk_" ++ pad3 id ++ "_input.mp4"

/-- Output path of a chunk inside the chunks directory. -/
def chunkOutputPath (chunksDir : String) (id : Nat) : String :=
  chunksDir ++ "/chunk_" ++ pad3 id ++ "_output.mp4"

/-- The while loop of `VideoEditor._calculate_chunks`:
`while start < duration: end = min(start + chunk_duration, duration); ...;
start = end`.  `C` is `config.chunk_duration`, `D` the probed duration.
The loop only terminates for a positive chunk duration, so the positivity
hypothesis is part of the definition. -/
def chunkLoop (chunksDir : String) (C D : ℚ) (hC : 0 < C) (chunk_id : Nat)
    (start : ℚ) : List ChunkInfo :=
  if h : start < D then
    { chunk_id := chunk_id
      start_time := start
      end_time := min (start + C) D
      duration := min (start + C) D - start
      input_path := chunkInputPath chunksDir chunk_id
      output_path := chunkOutputPath chunksDir chunk_id
      processed := false
      checksum := none } ::
      chunkLoop chunksDir C D hC (chunk_id + 1) (min (start + C) D)
  else []
termination_by Nat.ceil ((D - start) / C)
decreasing_by
  rcases le_total (start + C) D with hle | hge
  · rw [min_eq_left hle]
    have hx : (1 : ℚ) ≤ (D - start) / C := by
      rw [le_div_iff₀ hC]; linarith
    have hdiv : (D - (start + C)) / C = (D - start) / C - 1 := by
      field_simp
      ring
    rw [hdiv]
    have h0 : (0 : ℚ) ≤ (D - start) / C - 1 := by linarith
    have hceil := Nat.ceil_add_one h0
    have heq : (D - start) / C - 1 + 1 = (D - start) / C := by ring
    rw [heq] at hceil
    rw [hceil]
    omega
  · rw [min_eq_right hge]
    have hz : (D - D) / C = 0 := by simp
    rw [hz]
    simp only [Nat.ceil_zero]
    have hpos : 0 < (D - start) / C := div_pos (by linarith) hC
    exact Nat.ceil_pos.mpr hpos

/-- `VideoEditor._calculate_chunks` on a fresh state: the loop starting at
`chunk_id = 0` and `start = 0`. -/
def calculate_chunks (chunksDir : String) (C D : ℚ) (hC : 0 < C) :
    List ChunkInfo :=
  chunkLoop chunksDir C D hC 0 0

/-! ## auto_edit.py: persisted edit state and the checksum validation in run() -/

/-- The persisted `edit_state.json` contents that matter to the pipeline:
the chunk list, the completed-steps set, and the stored input checksum from
the metadata block. -/
structure EditState where
  chunks : List ChunkInfo
  completed_steps : List String
  input_checksum : Option String
deriving Repr, DecidableEq

/-- The instance attributes that `VideoEditor.__init__` assigns on `self`.
Note that the chunks directory attribute is named `chunks_dir`. -/
def videoEditorInitAttrs : List String :=
  ["config", "work_dir", "chunks_dir", "temp_dir", "state_file", "state"]

/-- Outcome of the input-checksum validation step at the top of
`VideoEditor.run`. -/
inductive ValidationOutcome where
  /-- validation passed; the pipeline continues with this state and these
  directory contents -/
  | proceed : EditState → List String → List String → ValidationOutcome
  /-- an exception escaped the step; the outer handler of `run` logs it and
  `run` returns False, leaving this state file and these directory contents
  on disk -/
  | runFails : EditState → List String → List String → ValidationOutcome
deriving Repr, DecidableEq

/-- The input-checksum validation step of `VideoEditor.run`, lines 979-1004:
compare the freshly computed checksum of the input video with the stored
one; on a mismatch, reset the state, save it, and then try to clear the
chunks directory.  The clearing code reads `self.chunk_dir`, but `__init__`
only ever assigns `self.chunks_dir`, so Python raises `AttributeError`
there; the outer `except Exception` of `run` turns that into a False
return.  `current` is the fresh checksum, `st` the loaded state,
`chunksDirFiles` and `tempDirFiles` the current directory contents. -/
def validate_input_checksum (current : String) (st : EditState)
    (chunksDirFiles tempDirFiles : List String) : ValidationOutcome :=
  match st.input_checksum with
  | some saved =>
    if saved ≠ current then
      let st2 : EditState :=
        { chunks := [], completed_steps := [], input_checksum := some current }
      -- state cleared and written to disk by self._save_state()
      if videoEditorInitAttrs.contains "chunk_dir" then
        -- would rmtree and recreate the chunks and temp directories
        ValidationOutcome.proceed st2 [] []
      else
        -- AttributeError: the directories are left exactly as they were
        ValidationOutcome.runFails st2 chunksDirFiles tempDirFiles
    else
      ValidationOutcome.proceed st chunksDirFiles tempDirFiles
  | none =>
    -- first run: remember the checksum and continue
    ValidationOutcome.proceed { st with input_checksum := some current }
      chunksDirFiles tempDirFiles

/-! ## auto_edit.py: per-chunk processing and the chunk loop of run() -/

/-- `VideoEditor._process_chunk`.  `eff` models the external editing steps
for a chunk id: `some cs` means every step and the final re-encode succeed
and produce the output file with checksum `cs`; `none` means some step
raises.  `fs` is the set of files that exist on disk.  Any exception is
caught at the chunk level and becomes a `false` first component; an output
file that already exists makes the chunk a skip.  Returns the success flag,
the resulting files on disk, and the (possibly updated) chunk record. -/
def process_chunk (eff : Nat → Option String) (fs : List String)
    (chunk : ChunkInfo) : Bool × List String × ChunkInfo :=
  if fs.contains chunk.output_path then
    (true, fs, chunk)
  else
    match eff chunk.chunk_id with
    | some cs =>
      (true, fs ++ [chunk.output_path],
        { chunk with processed := true, checksum := some cs })
    | none =>
      -- caught by the chunk-level handler; temp files are cleaned up,
      -- no output file is produced
      (false, fs, chunk)

/-- The step-3 loop of `VideoEditor.run`: process every not-yet-processed
chunk in order; the first failing chunk makes `run` return False at once. -/
def run_process_chunks (eff : Nat → Option String) :
    List String → List ChunkInfo → Bool × List String
  | fs, [] => (true, fs)
  | fs, c :: rest =>
    if c.processed then
      run_process_chunks eff fs rest
    else
      match process_chunk eff fs c with
      | (true, fs2, _) => run_process_chunks eff fs2 rest
      | (false, fs2, _) => (false, fs2)

/-! ## state_store.py: job records -/

/-- Mirror of the `JobStatus` enumeration. -/
inductive JobStatus where
  | pending
  | in_progress
  | completed
  | failed
  | skipped
  | retrying
deriving Repr, DecidableEq

/-- The string stored in the JSON file for each status (`status.value`). -/
def JobStatus.value : JobStatus → String
  | .pending => "pending"
  | .in_progress => "in_progress"
  | .completed => "completed"
  | .failed => "failed"
  | .skipped => "skipped"
  | .retrying => "retrying"

/-- One entry of the diagnostics list that `mark_job_status` appends to.
The diagnostic payload dictionary is kept opaque as a string. -/
structure DiagEntry where
  timestamp : String
  status : String
  step : Option String
  data : String
deriving Repr, DecidableEq

/-- One job record of `state["jobs"]`, with the fields that `add_job`
creates.  The job payload and the export metadata are opaque strings. -/
structure Job where
  job_id : String
  job_data : String
  status : String
  created_at : String
  updated_at : String
  attempts : Nat
  max_attempts : Nat
  last_error : Option String
  diagnostics : List DiagEntry
  current_step : Option String
  start_time : Option String
  end_time : Option String
  export_metadata : Option String
deriving Repr, DecidableEq

/-- The `state["jobs"]` dictionary: an insertion-ordered association list
from job id to record, as a Python dict is. -/
abbrev Jobs := List (String × Job)

/-- Python truthiness of an optional string field: `None` and the empty
string are falsy, every other string is truthy. -/
def pyTruthy : Option String → Bool
  | none => false
  | some s => s != ""

/-- Dictionary lookup, `state["jobs"].get(job_id)`. -/
def lookupJob : Jobs → String → Option Job
  | [], _ => none
  | p :: rest, k => if p.1 = k then some p.2 else lookupJob rest k

/-- Dictionary assignment to an existing key: the entry keeps its position
and its value is replaced. -/
def setJob (jobs : Jobs) (k : String) (j : Job) : Jobs :=
  jobs.map fun p => if p.1 = k then (k, j) else p

/-- Python dict assignment `state["jobs"][job_id] = entry`: replace in
place when the key exists, append otherwise. -/
def dictInsert (jobs : Jobs) (k : String) (j : Job) : Jobs :=
  if (lookupJob jobs k).isSome then setJob jobs k j else jobs ++ [(k, j)]

/-! ## state_store.py: mark_job_status -/

/-- The in-place record update performed by `StateStore.mark_job_status`
once the job has been found: set status and updated time, record an error
message and a current step when supplied, then the status-specific
updates (`in_progress` sets the start time if it is unset and increments
attempts; `completed`, `failed` and `skipped` set the end time;
`retrying` increments attempts), and finally append a diagnostics entry
when one is supplied.  `now` stands for `datetime.now().isoformat()`. -/
def applyMark (job : Job) (status : JobStatus)
    (error_message current_step diagnostics : Option String)
    (now : String) : Job :=
  let job1 := { job with status := status.value, updated_at := now }
  let job2 :=
    if pyTruthy error_message then { job1 with last_error := error_message }
    else job1
  let job3 :=
    if pyTruthy current_step then { job2 with current_step := current_step }
    else job2
  let job4 :=
    if status = JobStatus.in_progress then
      let j :=
        if pyTruthy job3.start_time then job3
        else { job3 with start_time := some now }
      { j with attempts := j.attempts + 1 }
    else if status = JobStatus.completed ∨ status = JobStatus.failed ∨
        status = JobStatus.skipped then
      { job3 with end_time := some now }
    else if status = JobStatus.retrying then
      { job3 with attempts := job3.attempts + 1 }
    else job3
  match diagnostics with
  | some d =>
    { job4 with
      diagnostics := job4.diagnostics ++
        [{ timestamp := now, status := status.value,
           step := current_step, data := d }] }
  | none => job4

/-- Result of a store mutation: the returned boolean, the jobs dictionary
afterwards, and whether `_save_jobs_state` ran (which both writes the jobs
file and creates a timestamped backup copy of the previous one). -/
structure MarkOutcome where
  ok : Bool
  jobs : Jobs
  saved : Bool
deriving Repr, DecidableEq

/-- `StateStore.mark_job_status`: load the jobs state, return False without
any write when the job id is unknown, otherwise update the record and save. -/
def mark_job_status (jobs : Jobs) (job_id : String) (status : JobStatus)
    (error_message current_step diagnostics : Option String)
    (now : String) : MarkOutcome :=
  match lookupJob jobs job_id with
  | none => { ok := false, jobs := jobs, saved := false }
  | some job =>
    { ok := true
      jobs := setJob jobs job_id
        (applyMark job status error_message current_step diagnostics now)
      saved := true }

/-! ## state_store.py: failed-job selection and retry -/

/-- `StateStore.get_failed_jobs`: the job records whose status is
`failed` and whose attempts are below their per-job `max_attempts`,
in dictionary order. -/
def get_failed_jobs (jobs : Jobs) : List Job :=
  (jobs.map Prod.snd).filter fun job =>
    job.status == JobStatus.failed.value &&
      decide (job.attempts < job.max_attempts)

/-- One iteration of the loop in `StateStore.resume_failed_jobs`: mark the
job pending; when that succeeds append its id to the resumed list. -/
def resumeStep (now : String) (acc : List String × Jobs) (job : Job) :
    List String × Jobs :=
  let r := mark_job_status acc.2 job.job_id JobStatus.pending none none none now
  if r.ok then (acc.1 ++ [job.job_id], r.jobs) else (acc.1, r.jobs)

/-- `StateStore.resume_failed_jobs`: mark every retryable failed job as
pending again and collect the ids that were marked. -/
def resume_failed_jobs (jobs : Jobs) (now : String) : List String × Jobs :=
  (get_failed_jobs jobs).foldl (resumeStep now) ([], jobs)

/-! ## state_store.py: backoff -/

/-- `StateStore.calculate_backoff_delay`: exponential backoff capped at
`max_backoff`, optionally inflated by a jitter draw.  `u` stands for the
value returned by `random.uniform(0.1, 0.3)`, whose documented range is
`0.1 <= u <= 0.3`. -/
def calculate_backoff_delay (base_backoff max_backoff multiplier : ℚ)
    (use_jitter : Bool) (u : ℚ) (attempt : Nat) : ℚ :=
  let delay := base_backoff * multiplier ^ (attempt - 1)
  let capped := min delay max_backoff
  if use_jitter then capped + u * capped else capped

/-! ## state_store.py: session TTL -/

/-- Mirror of the `SessionStatus` enumeration. -/
inductive SessionStatus where
  | valid
  | stale
  | expired
  | invalid
deriving Repr, DecidableEq

/-- `StateStore.check_session_ttl`: classify the session from the stored
`last_state_saved_at` timestamp, the current time and the configured
maximum age.  `parseTs` stands for `datetime.fromisoformat` (after the Z
replacement and the tzinfo strip); a parse failure is the inner
`except` branch.  A missing or empty timestamp is falsy and yields
`invalid`.  `now` and parsed timestamps are in seconds. -/
def check_session_ttl (parseTs : String → Option ℚ)
    (last_saved : Option String) (now max_age : ℚ) : SessionStatus :=
  match last_saved with
  | none => SessionStatus.invalid
  | some s =>
    if s = "" then SessionStatus.invalid
    else
      match parseTs s with
      | none => SessionStatus.invalid
      | some t =>
        let age := now - t
        if age > max_age then SessionStatus.expired
        else if age > max_age * 0.8 then SessionStatus.stale
        else SessionStatus.valid

/-! ## state_store.py: add_job and save -/

/-- The fresh record that `StateStore.add_job` builds for a job id and
payload; `max_attempts` comes from the retry-policy settings. -/
def freshJob (job_id job_data : String) (max_attempts : Nat)
    (now : String) : Job :=
  { job_id := job_id
    job_data := job_data
    status := JobStatus.pending.value
    created_at := now
    updated_at := now
    attempts := 0
    max_attempts := max_attempts
    last_error := none
    diagnostics := []
    current_step := none
    start_time := none
    end_time := none
    export_metadata := none }

/-- `StateStore._save_jobs_state`: back up the old file and write the new
state; every exception during that is caught inside the method, printed
and swallowed, so the method always returns normally.  `write_ok` models
whether the file write succeeds; on failure the jobs file keeps its old
contents.  Returns the jobs file contents after the call. -/
def save_jobs_state (write_ok : Bool) (disk new_state : Jobs) : Jobs :=
  if write_ok then new_state else disk

/-- Result of `add_job`: the returned boolean and the jobs file contents
after the call. -/
structure AddResult where
  ok : Bool
  disk : Jobs
deriving Repr, DecidableEq

/-- `StateStore.add_job`: load the state, build a fresh pending record,
assign it under the job id (overwriting any existing record), and save.
Because `_save_jobs_state` swallows its own errors, the `except` branch of
`add_job` is not reached by a failing file write and the method returns
True regardless of `write_ok`. -/
def add_job (write_ok : Bool) (disk : Jobs) (job_id job_data : String)
    (max_attempts : Nat) (now : String) : AddResult :=
  let state := disk
  let entry := freshJob job_id job_data max_attempts now
  let jobs2 := dictInsert state job_id entry
  { ok := true, disk := save_jobs_state write_ok disk jobs2 }

/-! ## Concrete sample data used by the witness theorems -/

/-- A concrete chunk record as `_calculate_chunks` would produce it. -/
def demoChunkA : ChunkInfo :=
  { chunk_id := 0, start_time := 0, end_time := 300, duration := 300,
    input_path := "chunks/chunk_000_input.mp4",
    output_path := "chunks/chunk_000_output.mp4",
    processed := false, checksum := none }

/-- A second concrete chunk record. -/
def demoChunkB : ChunkInfo :=
  { chunk_id := 1, start_time := 300, end_time := 650, duration := 350,
    input_path := "chunks/chunk_001_input.mp4",
    output_path := "chunks/chunk_001_output.mp4",
    processed := false, checksum := none }

/-- An effect oracle under which chunk 0 processes fine and chunk 1
raises inside its editing steps. -/
def demoEff : Nat → Option String :=
  fun id => if id = 0 then some "cs0" else none

/-- A freshly added pending job. -/
def demoPendingJob : Job := freshJob "job1" "payload1" 3 "t0"

/-- A failed job with attempts still below its ceiling. -/
def demoFailedRetryable : Job :=
  { freshJob "a" "pa" 3 "t0" with
    status := JobStatus.failed.value, attempts := 1 }

/-- A failed job at its attempts ceiling. -/
def demoFailedExhausted : Job :=
  { freshJob "b" "pb" 3 "t0" with
    status := JobStatus.failed.value, attempts := 3 }

/-- A jobs dictionary holding one retryable and one exhausted failed job. -/
def demoJobs : Jobs :=
  [("a", demoFailedRetryable), ("b", demoFailedExhausted)]

/-! ## Dictionary lemmas -/

theorem lookupJob_setJob_self (jobs : Jobs) (k : String) (j : Job)
    (h : (lookupJob jobs k).isSome) :
    lookupJob (setJob jobs k j) k = some j := by
  induction jobs with
  | nil => simp [lookupJob] at h
  | cons p rest ih =>
    by_cases hp : p.1 = k
    · simp [setJob, lookupJob, hp]
    · simp only [setJob, List.map_cons, if_neg hp, lookupJob, if_neg hp] at h ⊢
      exact ih h

theorem lookupJob_setJob_ne (jobs : Jobs) (k id : String) (j : Job)
    (h : k ≠ id) :
    lookupJob (setJob jobs id j) k = lookupJob jobs k := by
  induction jobs with
  | nil => rfl
  | cons p rest ih =>
    by_cases hp : p.1 = id
    · have hik : id ≠ k := fun he => h he.symm
      simp only [setJob, List.map_cons, if_pos hp, lookupJob, if_neg hik,
        if_neg (hp ▸ hik : p.1 ≠ k)] at ih ⊢
      exact ih
    · by_cases hk : p.1 = k
      · simp [setJob, lookupJob, hp, hk, h]
      · simp only [setJob, List.map_cons, if_neg hp, lookupJob, if_neg hk] at ih ⊢
        exact ih

theorem lookupJob_isSome_setJob (jobs : Jobs) (k id : String) (j : Job) :
    (lookupJob (setJob jobs id j) k).isSome = (lookupJob jobs k).isSome := by
  induction jobs with
  | nil => rfl
  | cons p rest ih =>
    by_cases hp : p.1 = id
    · by_cases hk : id = k
      · simp [setJob, lookupJob, hp, hk]
      · have hpk : p.1 ≠ k := by rw [hp]; exact hk
        simp only [setJob, List.map_cons, if_pos hp, lookupJob, if_neg hk, if_neg hpk]
        exact ih
    · simp only [setJob, List.map_cons, if_neg hp, lookupJob] at ih ⊢
      by_cases hk : p.1 = k
      · simp [hk]
      · simp [hk, ih]

theorem setJob_keys (jobs : Jobs) (id : String) (j : Job) :
    (setJob jobs id j).map Prod.fst = jobs.map Prod.fst := by
  induction jobs with
  | nil => rfl
  | cons p rest ih =>
    by_cases hp : p.1 = id
    · simp only [setJob, List.map_cons, if_pos hp] at ih ⊢
      rw [ih]
      simp [hp.symm]
    · simp only [setJob, List.map_cons, if_neg hp] at ih ⊢
      rw [ih]

theorem lookupJob_isSome_of_mem_keys (jobs : Jobs) (k : String)
    (hm : k ∈ jobs.map Prod.fst) :
    (lookupJob jobs k).isSome := by
  induction jobs with
  | nil => cases hm
  | cons p rest ih =>
    by_cases hp : p.1 = k
    · simp [lookupJob, hp]
    · simp only [List.map_cons, List.mem_cons] at hm
      rcases hm with hm | hm
    
      · exact absurd hm.symm hp
      · simp only [lookupJob, if_neg hp]
        exact ih hm

theorem lookupJob_of_mem_nodup (jobs : Jobs) (k : String) (v : Job)
    (hnd : (jobs.map Prod.fst).Nodup) (hm : (k, v) ∈ jobs) :
    lookupJob jobs k = some v := by
  induction jobs with
  | nil => cases hm
  | cons p rest ih =>
    simp only [List.map_cons, List.nodup_cons] at hnd
    rcases List.mem_cons.mp hm with rfl | hm2
    · simp [lookupJob]
    · have hp : p.1 ≠ k := by
        intro he
        exact hnd.1 (he ▸ List.mem_map_of_mem Prod.fst hm2)
      simp only [lookupJob, if_neg hp]
      exact ih hnd.2 hm2

/-! ## Chunk loop lemmas -/

theorem chunkLoop_length (dir : String) (C D : ℚ) (hC : 0 < C) (i : Nat)
    (s : ℚ) :
    (chunkLoop dir C D hC i s).length = Nat.ceil ((D - s) / C) := by
  induction i, s using chunkLoop.induct dir C D hC with
  | case1 i s h ih =>
    rw [chunkLoop, dif_pos h, List.length_cons, ih]
    rcases le_total (s + C) D with hle | hge
    · rw [min_eq_left hle]
      have hx : (1 : ℚ) ≤ (D - s) / C := by
        rw [le_div_iff₀ hC]; linarith
      have hdiv : (D - (s + C)) / C = (D - s) / C - 1 := by
        field_simp
        ring
      have h0 : (0 : ℚ) ≤ (D - s) / C - 1 := by linarith
      have hceil := Nat.ceil_add_one h0
      have heq : (D - s) / C - 1 + 1 = (D - s) / C := by ring
      rw [heq] at hceil
      rw [hdiv, hceil]
    · rw [min_eq_right hge]
      have hpos : 0 < (D - s) / C := div_pos (by linarith) hC
      have hub : (D - s) / C ≤ 1 := by
        rw [div_le_one hC]; linarith
      have h1 : Nat.ceil ((D - s) / C) ≤ 1 := by
        apply Nat.ceil_le.mpr
        push_cast
        linarith
      have h2 : 0 < Nat.ceil ((D - s) / C) := Nat.ceil_pos.mpr hpos
      simp only [sub_self, zero_div, Nat.ceil_zero]
      omega
  | case2 i s h =>
    rw [chunkLoop, dif_neg h, List.length_nil]
    have hle : (D - s) / C ≤ 0 :=
      div_nonpos_of_nonpos_of_nonneg (by linarith) hC.le
    exact (Nat.ceil_eq_zero.mpr hle).symm

theorem chunkLoop_ends (dir : String) (C D : ℚ) (hC : 0 < C) (i : Nat)
    (s : ℚ) :
    ∀ c ∈ chunkLoop dir C D hC i s,
      c.end_time = min (c.start_time + C) D ∧
      c.start_time < c.end_time ∧
      c.duration = c.end_time - c.start_time := by
  induction i, s using chunkLoop.induct dir C D hC with
  | case1 i s h ih =>
    intro c hc
    rw [chunkLoop, dif_pos h] at hc
    rcases List.mem_cons.mp hc with rfl | hc2
    · refine ⟨rfl, ?_, rfl⟩
      exact lt_min (by linarith) h
    · exact ih c hc2
  | case2 i s h =>
    intro c hc
    rw [chunkLoop, dif_neg h] at hc
    cases hc

theorem chunkLoop_head_start (dir : String) (C D : ℚ) (hC : 0 < C)
    (i : Nat) (s : ℚ) (h : s < D) :
    (chunkLoop dir C D hC i s).head?.map ChunkInfo.start_time = some s := by
  rw [chunkLoop, dif_pos h]
  rfl

theorem chunkLoop_chain (dir : String) (C D : ℚ) (hC : 0 < C) (i : Nat)
    (s : ℚ) :
    List.Chain' (fun a b => a.end_time = b.start_time)
      (chunkLoop dir C D hC i s) := by
  induction i, s using chunkLoop.induct dir C D hC with
  | case1 i s h ih =>
    rw [chunkLoop, dif_pos h]
    refine List.chain'_cons'.mpr ⟨?_, ih⟩
    intro y hy
    by_cases he : min (s + C) D < D
    · have hh := chunkLoop_head_start dir C D hC (i + 1) (min (s + C) D) he
      rw [hy] at hh
      simp only [Option.map_some'] at hh
      exact (Option.some.inj hh).symm
    · rw [chunkLoop, dif_neg he] at hy
      cases hy
  | case2 i s h =>
    rw [chunkLoop, dif_neg h]
    exact List.chain'_nil

theorem chunkLoop_ne_nil (dir : String) (C D : ℚ) (hC : 0 < C) (i : Nat)
    (s : ℚ) (h : s < D) :
    chunkLoop dir C D hC i s ≠ [] := by
  rw [chunkLoop, dif_pos h]
  exact List.cons_ne_nil _ _

theorem chunkLoop_getLast_end (dir : String) (C D : ℚ) (hC : 0 < C)
    (i : Nat) (s : ℚ) :
    s < D →
    (chunkLoop dir C D hC i s).getLast?.map ChunkInfo.end_time = some D := by
  induction i, s using chunkLoop.induct dir C D hC with
  | case1 i s h ih =>
    intro _
    rw [chunkLoop, dif_pos h]
    by_cases he : min (s + C) D < D
    · have hne := chunkLoop_ne_nil dir C D hC (i + 1) (min (s + C) D) he
      rcases List.exists_cons_of_ne_nil hne with ⟨c2, l2, hl⟩
      rw [hl, List.getLast?_cons_cons]
      have hlast := ih he
      rw [hl] at hlast
      exact hlast
    · have heD : min (s + C) D = D :=
        le_antisymm (min_le_right _ _) (not_lt.mp he)
      have hnil : chunkLoop dir C D hC (i + 1) (min (s + C) D) = [] := by
        rw [chunkLoop, dif_neg he]
      rw [hnil]
      simp [heD]
  | case2 i s h =>
    intro hs
    exact absurd hs h

/-! ## Claim theorems -/

/-- Claim C1: for every total duration D > 0 and chunk duration C > 0, the
chunk list computed by `_calculate_chunks` partitions [0, D) contiguously
with no gaps or overlaps: the chunk count is ceil(D / C), every chunk ends
at min(start + C, D) and is nonempty, the first chunk starts at 0,
consecutive chunks meet exactly, and the final chunk ends at D. -/
theorem calculate_chunks_partition (dir : String) (C D : ℚ) (hC : 0 < C)
    (hD : 0 < D) :
    (calculate_chunks dir C D hC).length = Nat.ceil (D / C) ∧
    (∀ c ∈ calculate_chunks dir C D hC,
      c.end_time = min (c.start_time + C) D ∧ c.start_time < c.end_time) ∧
    (calculate_chunks dir C D hC).head?.map ChunkInfo.start_time = some 0 ∧
    List.Chain' (fun a b => a.end_time = b.start_time)
      (calculate_chunks dir C D hC) ∧
    (calculate_chunks dir C D hC).getLast?.map ChunkInfo.end_time = some D := by
  unfold calculate_chunks
  refine ⟨?_, ?_, ?_, ?_, ?_⟩
  · rw [chunkLoop_length]
    norm_num
  · intro c hc
    obtain ⟨h1, h2, _⟩ := chunkLoop_ends dir C D hC 0 0 c hc
    exact ⟨h1, h2⟩
  · exact chunkLoop_head_start dir C D hC 0 0 hD
  · exact chunkLoop_chain dir C D hC 0 0
  · exact chunkLoop_getLast_end dir C D hC 0 0 hD

/-- Claim C1 witness: the spec example D = 650, C = 300. -/
theorem calculate_chunks_partition_witness :
    (0 : ℚ) < 300 ∧ (0 : ℚ) < 650 ∧
    (calculate_chunks "chunks" 300 650 (by decide)).length =
      Nat.ceil ((650 : ℚ) / 300) ∧
    (calculate_chunks "chunks" 300 650 (by decide)).getLast?.map
      ChunkInfo.end_time = some 650 :=
  ⟨by decide, by decide,
   (calculate_chunks_partition "chunks" 300 650 (by decide) (by decide)).1,
   (calculate_chunks_partition "chunks" 300 650 (by decide)
     (by decide)).2.2.2.2⟩

/-- Claim C2 (code bug): with a stored input checksum differing from the
current one, run() clears and saves the state, but the directory-clearing
code reads the attribute `chunk_dir` while `__init__` only assigns
`chunks_dir`, so an AttributeError aborts run() (which returns False) and
the chunks and temp directories are left untouched instead of being
emptied and recreated. -/
theorem validate_input_checksum_mismatch_bug :
    validate_input_checksum "bbb"
      { chunks := [demoChunkA],
        completed_steps := ["chunk_calculation"],
        input_checksum := some "aaa" }
      ["chunks/chunk_000_input.mp4"] ["temp/tmp0.mp4"] =
    ValidationOutcome.runFails
      { chunks := [], completed_steps := [], input_checksum := some "bbb" }
      ["chunks/chunk_000_input.mp4"] ["temp/tmp0.mp4"] := by
  decide

/-- A chunk whose output file already exists is skipped: `_process_chunk`
returns True without running any editing step and without touching disk. -/
theorem process_chunk_skip (eff : Nat → Option String) (fs : List String)
    (c : ChunkInfo) (h : c.output_path ∈ fs) :
    process_chunk eff fs c = (true, fs, c) := by
  unfold process_chunk
  rw [if_pos (List.elem_eq_true_of_mem h)]

/-- Claim C8: when every chunk before `k` either is already marked
processed, already has its output on disk, or processes successfully, and
the editing steps of `k` raise, the exception is caught at the chunk level,
`_process_chunk` returns False and run() returns False; no file already on
disk is removed, the outputs of the chunks processed before `k` are on
disk afterwards, and on the next invocation every chunk whose output is on
disk is skipped by the output-existence check regardless of its effects. -/
theorem run_process_chunks_chunk_failure (eff : Nat → Option String)
    (fs : List String) (pre post : List ChunkInfo) (k : ChunkInfo)
    (hpre : ∀ c ∈ pre,
      c.processed = true ∨ c.output_path ∈ fs ∨ (eff c.chunk_id).isSome)
    (hk1 : k.processed = false)
    (hk2 : k.output_path ∉ fs)
    (hk3 : ∀ c ∈ pre, c.output_path ≠ k.output_path)
    (hk4 : eff k.chunk_id = none) :
    (run_process_chunks eff fs (pre ++ k :: post)).1 = false ∧
    fs ⊆ (run_process_chunks eff fs (pre ++ k :: post)).2 ∧
    (∀ c ∈ pre, c.output_path ∈ (run_process_chunks eff fs (pre ++ k :: post)).2 ∨
      c.processed = true) ∧
    (∀ eff2 c2, c2.output_path ∈ (run_process_chunks eff fs (pre ++ k :: post)).2 →
      process_chunk eff2 (run_process_chunks eff fs (pre ++ k :: post)).2 c2 =
        (true, (run_process_chunks eff fs (pre ++ k :: post)).2, c2)) := by
  induction pre generalizing fs with
  | nil =>
    have hcontains : fs.contains k.output_path = false := by
      cases hcf : fs.contains k.output_path with
      | false => rfl
      | true => exact absurd (List.mem_of_elem_eq_true hcf) hk2
    have hrun : run_process_chunks eff fs ([] ++ k :: post) = (false, fs) := by
      simp only [List.nil_append, run_process_chunks, hk1, Bool.false_eq_true,
        if_false, process_chunk, hcontains, hk4]
    rw [hrun]
    refine ⟨rfl, fun a ha => ha, fun c hc => absurd hc (List.not_mem_nil c),
      fun eff2 c2 h2 => process_chunk_skip eff2 fs c2 h2⟩
  | cons c0 rest ih =>
    have hp0 := hpre c0 (List.mem_cons_self c0 rest)
    cases hproc : c0.processed with
    | true =>
      have hstep : run_process_chunks eff fs ((c0 :: rest) ++ k :: post) =
          run_process_chunks eff fs (rest ++ k :: post) := by
        simp only [List.cons_append, run_process_chunks, hproc, if_true]
        rfl
      rw [hstep]
      have ihr := ih fs
        (fun c hc => hpre c (List.mem_cons_of_mem c0 hc)) hk2
        (fun c hc => hk3 c (List.mem_cons_of_mem c0 hc))
      exact ⟨ihr.1, ihr.2.1,
        fun c hc => by
          rcases List.mem_cons.mp hc with rfl | hc2
          · exact Or.inr hproc
          · exact ihr.2.2.1 c hc2,
        ihr.2.2.2⟩
    | false =>
      by_cases hco : c0.output_path ∈ fs
      · have hstep : run_process_chunks eff fs ((c0 :: rest) ++ k :: post) =
            run_process_chunks eff fs (rest ++ k :: post) := by
          simp only [List.cons_append, run_process_chunks, hproc,
            Bool.false_eq_true, if_false, process_chunk_skip eff fs c0 hco]
          rfl
        rw [hstep]
        have ihr := ih fs
          (fun c hc => hpre c (List.mem_cons_of_mem c0 hc)) hk2
          (fun c hc => hk3 c (List.mem_cons_of_mem c0 hc))
        exact ⟨ihr.1, ihr.2.1,
          fun c hc => by
            rcases List.mem_cons.mp hc with rfl | hc2
            · exact Or.inl (ihr.2.1 hco)
            · exact ihr.2.2.1 c hc2,
          ihr.2.2.2⟩
      · have hsome : (eff c0.chunk_id).isSome := by
          rcases hp0 with hp | hp | hp
          · rw [hproc] at hp; cases hp
          · exact absurd hp hco
          · exact hp
        obtain ⟨cs, hcs⟩ := Option.isSome_iff_exists.mp hsome
        have hcontains : fs.contains c0.output_path = false := by
          cases hcf : fs.contains c0.output_path with
          | false => rfl
          | true => exact absurd (List.mem_of_elem_eq_true hcf) hco
        have hstep : run_process_chunks eff fs ((c0 :: rest) ++ k :: post) =
            run_process_chunks eff (fs ++ [c0.output_path])
              (rest ++ k :: post) := by
          simp only [List.cons_append, run_process_chunks, hproc,
            Bool.false_eq_true, if_false, process_chunk, hcontains, hcs]
          rfl
        rw [hstep]
        have hsub : fs ⊆ fs ++ [c0.output_path] :=
          List.subset_append_left fs [c0.output_path]
        have ihr := ih (fs ++ [c0.output_path])
          (fun c hc => by
            rcases hpre c (List.mem_cons_of_mem c0 hc) with hp | hp | hp
            · exact Or.inl hp
            · exact Or.inr (Or.inl (hsub hp))
            · exact Or.inr (Or.inr hp))
          (by
            intro hmem
            rcases List.mem_append.mp hmem with hmem | hmem
            · exact hk2 hmem
            · exact hk3 c0 (List.mem_cons_self c0 rest)
                (List.mem_singleton.mp hmem).symm)
          (fun c hc => hk3 c (List.mem_cons_of_mem c0 hc))
        refine ⟨ihr.1, fun a ha => ihr.2.1 (hsub ha),
          fun c hc => by
            rcases List.mem_cons.mp hc with rfl | hc2
            · exact Or.inl (ihr.2.1 (List.mem_append_right fs
                (List.mem_singleton_self c.output_path)))
            · exact ihr.2.2.1 c hc2,
          ihr.2.2.2⟩

/-- Claim C8 witness: chunk 0 succeeds, chunk 1 raises; the loop reports
failure, chunk 0 output stays on disk. -/
theorem run_process_chunks_chunk_failure_witness :
    (run_process_chunks demoEff [] ([demoChunkA] ++ demoChunkB :: [])).1 =
      false ∧
    (demoChunkA.output_path ∈
        (run_process_chunks demoEff [] ([demoChunkA] ++ demoChunkB :: [])).2 ∨
      demoChunkA.processed = true) :=
  ⟨(run_process_chunks_chunk_failure demoEff [] [demoChunkA] [] demoChunkB
      (by decide) (by decide) (by decide) (by decide) (by decide)).1,
   (run_process_chunks_chunk_failure demoEff [] [demoChunkA] [] demoChunkB
      (by decide) (by decide) (by decide) (by decide) (by decide)).2.2.1
     demoChunkA (List.mem_cons_self demoChunkA [])⟩

/-- Claim C5: `check_session_ttl` classifies purely from the stored
timestamp, the current time and the maximum age: valid when the age is at
most 80 percent of max_age, stale when it lies strictly between 80 percent
and max_age inclusive, expired when it exceeds max_age, and invalid when
the timestamp is missing or unparsable. -/
theorem check_session_ttl_spec (parseTs : String → Option ℚ)
    (now max_age : ℚ) (hmax : 0 ≤ max_age) :
    (∀ s t, s ≠ "" → parseTs s = some t →
      ((now - t ≤ max_age * 0.8 →
        check_session_ttl parseTs (some s) now max_age =
          SessionStatus.valid) ∧
       (max_age * 0.8 < now - t → now - t ≤ max_age →
        check_session_ttl parseTs (some s) now max_age =
          SessionStatus.stale) ∧
       (max_age < now - t →
        check_session_ttl parseTs (some s) now max_age =
          SessionStatus.expired))) ∧
    check_session_ttl parseTs none now max_age = SessionStatus.invalid ∧
    (∀ s, parseTs s = none →
      check_session_ttl parseTs (some s) now max_age =
        SessionStatus.invalid) := by
  refine ⟨?_, rfl, ?_⟩
  · intro s t hs hp
    refine ⟨?_, ?_, ?_⟩
    · intro h1
      simp only [check_session_ttl, if_neg hs, hp]
      rw [if_neg (by linarith [hmax]), if_neg (by linarith)]
    · intro h1 h2
      simp only [check_session_ttl, if_neg hs, hp]
      rw [if_neg (by linarith), if_pos (by linarith)]
    · intro h1
      simp only [check_session_ttl, if_neg hs, hp]
      rw [if_pos (by linarith)]
  · intro s hp
    by_cases hs : s = ""
    · simp [check_session_ttl, hs]
    · simp only [check_session_ttl, if_neg hs, hp]

/-- Claim C5 witness: the spec instances with max_age = 3600 seconds: an
age of 2900 is stale, 3700 is expired, a missing timestamp is invalid. -/
theorem check_session_ttl_spec_witness :
    check_session_ttl (fun _ => some 0) (some "ts") 2900 3600 =
      SessionStatus.stale ∧
    check_session_ttl (fun _ => some 0) (some "ts") 3700 3600 =
      SessionStatus.expired ∧
    check_session_ttl (fun _ => some 0) none 2900 3600 =
      SessionStatus.invalid := by
  refine ⟨?_, ?_, ?_⟩
  · exact ((check_session_ttl_spec (fun _ => some 0) 2900 3600 (by norm_num)).1 "ts" 0
      (by decide) rfl).2.1 (by norm_num) (by norm_num)
  · exact ((check_session_ttl_spec (fun _ => some 0) 3700 3600 (by norm_num)).1 "ts" 0
      (by decide) rfl).2.2 (by norm_num)
  · exact (check_session_ttl_spec (fun _ => some 0) 2900 3600 (by norm_num)).2.1

/-- Claim C6 counterexample: with jitter enabled and draws inside the
documented uniform range [0.1, 0.3], two calls with increasing attempt
numbers can return a strictly decreasing delay once the cap is reached
(attempt 6 with draw 0.3 gives 78, attempt 7 with draw 0.1 gives 66), and
at attempt 1 with base 2 and multiplier 2 a draw of 0.3 returns exactly
2 * 1.3, which lies outside the half-open interval [2, 2 * 1.3). -/
theorem calculate_backoff_delay_claim_false :
    calculate_backoff_delay 2 60 2 true (1 / 10) 7 <
      calculate_backoff_delay 2 60 2 true (3 / 10) 6 ∧
    calculate_backoff_delay 2 60 2 true (3 / 10) 1 = 2 * (13 / 10) ∧
    ¬ calculate_backoff_delay 2 60 2 true (3 / 10) 1 < 2 * (13 / 10) := by
  refine ⟨?_, ?_, ?_⟩ <;> norm_num [calculate_backoff_delay]

/-- Claim C6 (amended): the delay is min(base * multiplier^(attempt-1),
max_delay), inflated by the jitter draw when jitter is on; for one fixed
jitter draw the returned delay is non-decreasing in the attempt number,
and at attempt 1 with base 2, multiplier 2 and the default cap the value
lies in the closed interval [2, 2 * 1.3]. -/
theorem calculate_backoff_delay_spec (base max_b mult u : ℚ) (jit : Bool)
    (hb : 0 ≤ base) (hm : 1 ≤ mult) (hu1 : 1 / 10 ≤ u) (hu2 : u ≤ 3 / 10) :
    (∀ n, calculate_backoff_delay base max_b mult jit u n =
      (if jit then
        min (base * mult ^ (n - 1)) max_b +
          u * min (base * mult ^ (n - 1)) max_b
       else min (base * mult ^ (n - 1)) max_b)) ∧
    (∀ n m, n ≤ m →
      calculate_backoff_delay base max_b mult jit u n ≤
        calculate_backoff_delay base max_b mult jit u m) ∧
    (2 ≤ calculate_backoff_delay 2 60 2 jit u 1 ∧
      calculate_backoff_delay 2 60 2 jit u 1 ≤ 2 * (13 / 10)) := by
  refine ⟨fun n => rfl, ?_, ?_⟩
  · intro n m hnm
    have hpow : mult ^ (n - 1) ≤ mult ^ (m - 1) :=
      pow_le_pow_right₀ hm (Nat.sub_le_sub_right hnm 1)
    have hbase : base * mult ^ (n - 1) ≤ base * mult ^ (m - 1) :=
      mul_le_mul_of_nonneg_left hpow hb
    have hmin : min (base * mult ^ (n - 1)) max_b ≤
        min (base * mult ^ (m - 1)) max_b := min_le_min hbase le_rfl
    unfold calculate_backoff_delay
    cases jit with
    | false => simpa using hmin
    | true =>
      simp only [if_true]
      have hfac : (0 : ℚ) ≤ 1 + u := by linarith
      have := mul_le_mul_of_nonneg_left hmin hfac
      nlinarith [this]
  · have hone : (2 : ℚ) * 2 ^ (1 - 1) = 2 := by norm_num
    cases jit with
    | false =>
      constructor <;> simp [calculate_backoff_delay] <;> norm_num
    | true =>
      unfold calculate_backoff_delay
      simp only [if_true]
      have hm2 : min ((2 : ℚ) * 2 ^ (1 - 1)) 60 = 2 := by norm_num
      rw [hm2]
      constructor <;> linarith

/-- Claim C6 witness: concrete monotone instance with a fixed draw. -/
theorem calculate_backoff_delay_spec_witness :
    calculate_backoff_delay 2 60 2 true (1 / 5) 2 ≤
      calculate_backoff_delay 2 60 2 true (1 / 5) 5 :=
  (calculate_backoff_delay_spec 2 60 2 (1 / 5) true (by norm_num)
    (by norm_num) (by norm_num) (by norm_num)).2.1 2 5 (by norm_num)

/-- Claim C7 counterexample: when the write of the jobs file fails,
`add_job` nevertheless returns True, because `_save_jobs_state` catches
and swallows the error itself; the claim that it returns false is wrong. -/
theorem add_job_write_failure_returns_true :
    (add_job false [] "job1" "payload1" 3 "t0").ok = true := rfl

/-- Claim C7 (amended): store I/O failures never escape to the caller:
`add_job` always returns normally with True, and when the write fails the
jobs file simply keeps its previous contents while the failure is only
logged inside `_save_jobs_state`. -/
theorem add_job_swallows_write_failure (w : Bool) (disk : Jobs)
    (id pl : String) (m : Nat) (t : String) :
    (add_job w disk id pl m t).ok = true ∧
    (w = false → (add_job w disk id pl m t).disk = disk) := by
  constructor
  · rfl
  · intro h
    subst h
    rfl

/-- Claim C7 witness: concrete failing write leaves the file unchanged. -/
theorem add_job_swallows_write_failure_witness :
    (add_job false [("job1", demoPendingJob)] "job2" "p2" 3 "t1").ok =
      true ∧
    (add_job false [("job1", demoPendingJob)] "job2" "p2" 3 "t1").disk =
      [("job1", demoPendingJob)] :=
  ⟨(add_job_swallows_write_failure false [("job1", demoPendingJob)]
      "job2" "p2" 3 "t1").1,
   (add_job_swallows_write_failure false [("job1", demoPendingJob)]
      "job2" "p2" 3 "t1").2 rfl⟩

/-- Claim C9: adding a job under an id that already exists succeeds and
silently replaces the stored record with a fresh one: status pending,
attempts 0, no timestamps, no diagnostics, no last error; the previous
history under that id is gone. -/
theorem add_job_overwrites_existing (disk : Jobs) (id pl : String)
    (m : Nat) (now : String) (old : Job)
    (hold : lookupJob disk id = some old) :
    (add_job true disk id pl m now).ok = true ∧
    lookupJob (add_job true disk id pl m now).disk id =
      some (freshJob id pl m now) ∧
    (freshJob id pl m now).status = JobStatus.pending.value ∧
    (freshJob id pl m now).attempts = 0 ∧
    (freshJob id pl m now).start_time = none ∧
    (freshJob id pl m now).end_time = none ∧
    (freshJob id pl m now).diagnostics = [] ∧
    (freshJob id pl m now).last_error = none := by
  refine ⟨rfl, ?_, rfl, rfl, rfl, rfl, rfl, rfl⟩
  show lookupJob (save_jobs_state true disk
    (dictInsert disk id (freshJob id pl m now))) id = some (freshJob id pl m now)
  unfold save_jobs_state dictInsert
  rw [if_pos rfl, if_pos (by rw [hold]; rfl)]
  exact lookupJob_setJob_self disk id _ (by rw [hold]; rfl)

/-- Claim C9 witness: overwriting an existing pending job. -/
theorem add_job_overwrites_existing_witness :
    (add_job true [("job1", demoPendingJob)] "job1" "p2" 3 "t5").ok =
      true ∧
    lookupJob (add_job true [("job1", demoPendingJob)] "job1" "p2" 3
      "t5").disk "job1" = some (freshJob "job1" "p2" 3 "t5") :=
  ⟨(add_job_overwrites_existing [("job1", demoPendingJob)] "job1" "p2" 3
      "t5" demoPendingJob rfl).1,
   (add_job_overwrites_existing [("job1", demoPendingJob)] "job1" "p2" 3
      "t5" demoPendingJob rfl).2.1⟩

/-- Claim C10: `mark_job_status` on an id that is not in the store returns
False and performs no write at all: the jobs dictionary is unchanged and
`_save_jobs_state` is never invoked, so neither the jobs file nor a backup
copy is touched. -/
theorem mark_job_status_missing_no_write (jobs : Jobs) (id : String)
    (st : JobStatus) (em cs d : Option String) (now : String)
    (h : lookupJob jobs id = none) :
    mark_job_status jobs id st em cs d now =
      { ok := false, jobs := jobs, saved := false } := by
  unfold mark_job_status
  rw [h]

/-- Claim C10 witness: marking an unknown id in a nonempty store. -/
theorem mark_job_status_missing_no_write_witness :
    mark_job_status [("job1", demoPendingJob)] "ghost" JobStatus.completed
      none none none "t3" =
    { ok := false, jobs := [("job1", demoPendingJob)], saved := false } :=
  mark_job_status_missing_no_write [("job1", demoPendingJob)] "ghost"
    JobStatus.completed none none none "t3" (by decide)

/-- `pyTruthy` of a missing optional value. -/
theorem pyTruthy_none : pyTruthy none = false := rfl

/-- Computation of `applyMark` for a bare in_progress transition. -/
theorem applyMark_in_progress (j : Job) (t : String) :
    applyMark j JobStatus.in_progress none none none t =
      { j with
        status := "in_progress"
        updated_at := t
        start_time :=
          (if pyTruthy j.start_time then j.start_time else some t)
        attempts := j.attempts + 1 } := by
  by_cases hs : pyTruthy j.start_time
  · simp [applyMark, JobStatus.value, pyTruthy_none, hs]
  · simp [applyMark, JobStatus.value, pyTruthy_none, hs]

/-- Computation of `applyMark` for a bare terminal transition. -/
theorem applyMark_terminal (j : Job) (st : JobStatus) (t : String)
    (h : st = JobStatus.completed ∨ st = JobStatus.failed ∨
      st = JobStatus.skipped) :
    applyMark j st none none none t =
      { j with status := st.value, updated_at := t, end_time := some t } := by
  rcases h with rfl | rfl | rfl <;>
    simp [applyMark, JobStatus.value, pyTruthy_none]

/-- Computation of `applyMark` for a bare pending transition. -/
theorem applyMark_pending (j : Job) (t : String) :
    applyMark j JobStatus.pending none none none t =
      { j with status := "pending", updated_at := t } := by
  simp [applyMark, JobStatus.value, pyTruthy_none]

/-- Unfolding of `mark_job_status` when the job exists. -/
theorem mark_job_status_found (jobs : Jobs) (id : String) (j : Job)
    (st : JobStatus) (em cs d : Option String) (now : String)
    (hj : lookupJob jobs id = some j) :
    mark_job_status jobs id st em cs d now =
      { ok := true, jobs := setJob jobs id (applyMark j st em cs d now),
        saved := true } := by
  unfold mark_job_status
  rw [hj]

/-- Claim C3: marking a stored job in_progress twice in succession
increments its attempts by exactly 2; the first call sets the start time
when it was unset, and the second call leaves the start time unchanged;
a transition into completed, failed or skipped sets the end time. -/
theorem mark_job_status_in_progress_twice (jobs : Jobs) (id t1 t2 : String)
    (j : Job) (hj : lookupJob jobs id = some j) (ht1 : t1 ≠ "") :
    (mark_job_status jobs id JobStatus.in_progress none none none t1).ok =
      true ∧
    (mark_job_status
      (mark_job_status jobs id JobStatus.in_progress none none none
        t1).jobs id JobStatus.in_progress none none none t2).ok = true ∧
    (lookupJob (mark_job_status
      (mark_job_status jobs id JobStatus.in_progress none none none
        t1).jobs id JobStatus.in_progress none none none t2).jobs id).map
      Job.attempts = some (j.attempts + 2) ∧
    (lookupJob (mark_job_status jobs id JobStatus.in_progress none none
      none t1).jobs id).map Job.start_time =
      some (if pyTruthy j.start_time then j.start_time else some t1) ∧
    (lookupJob (mark_job_status
      (mark_job_status jobs id JobStatus.in_progress none none none
        t1).jobs id JobStatus.in_progress none none none t2).jobs id).map
      Job.start_time =
      some (if pyTruthy j.start_time then j.start_time else some t1) ∧
    (∀ st, (st = JobStatus.completed ∨ st = JobStatus.failed ∨
        st = JobStatus.skipped) → ∀ tm,
      (lookupJob (mark_job_status jobs id st none none none tm).jobs
        id).map Job.end_time = some (some tm)) := by
  have hsome : (lookupJob jobs id).isSome := by rw [hj]; rfl
  have hj1 : j = { j with start_time := j.start_time } := rfl
  set j1 : Job :=
    { j with
      status := "in_progress"
      updated_at := t1
      start_time := (if pyTruthy j.start_time then j.start_time else some t1)
      attempts := j.attempts + 1 } with hj1def
  have hr1 : mark_job_status jobs id JobStatus.in_progress none none none
      t1 = { ok := true, jobs := setJob jobs id j1, saved := true } := by
    rw [mark_job_status_found jobs id j JobStatus.in_progress none none
      none t1 hj, applyMark_in_progress]
  have hl1 : lookupJob (setJob jobs id j1) id = some j1 :=
    lookupJob_setJob_self jobs id j1 hsome
  have hsome1 : (lookupJob (setJob jobs id j1) id).isSome := by
    rw [hl1]; rfl
  have hstart1 : pyTruthy j1.start_time = true := by
    rw [hj1def]
    by_cases hs : pyTruthy j.start_time
    · simp [hs]
    · simp only [hs, Bool.false_eq_true, if_false]
      simp [pyTruthy, ht1]
  set j2 : Job :=
    { j1 with
      status := "in_progress"
      updated_at := t2
      start_time := j1.start_time
      attempts := j1.attempts + 1 } with hj2def
  have hr2 : mark_job_status (setJob jobs id j1) id JobStatus.in_progress
      none none none t2 =
      { ok := true, jobs := setJob (setJob jobs id j1) id j2,
        saved := true } := by
    rw [mark_job_status_found (setJob jobs id j1) id j1
      JobStatus.in_progress none none none t2 hl1, applyMark_in_progress]
    rw [hj2def, hstart1]
    simp
  have hl2 : lookupJob (setJob (setJob jobs id j1) id j2) id = some j2 :=
    lookupJob_setJob_self (setJob jobs id j1) id j2 hsome1
  refine ⟨by rw [hr1], by rw [hr1, hr2], ?_, ?_, ?_, ?_⟩
  · rw [hr1, hr2]
    show (lookupJob (setJob (setJob jobs id j1) id j2) id).map
      Job.attempts = some (j.attempts + 2)
    rw [hl2]
    rfl
  · rw [hr1]
    show (lookupJob (setJob jobs id j1) id).map Job.start_time =
      some (if pyTruthy j.start_time then j.start_time else some t1)
    rw [hl1]
    rfl
  · rw [hr1, hr2]
    show (lookupJob (setJob (setJob jobs id j1) id j2) id).map
      Job.start_time =
      some (if pyTruthy j.start_time then j.start_time else some t1)
    rw [hl2]
    rfl
  · intro st hst tm
    rw [mark_job_status_found jobs id j st none none none tm hj,
      applyMark_terminal j st tm hst]
    show (lookupJob (setJob jobs id _) id).map Job.end_time =
      some (some tm)
    rw [lookupJob_setJob_self jobs id _ hsome]
    rfl

/-- Claim C3 witness: a fresh pending job marked in_progress twice. -/
theorem mark_job_status_in_progress_twice_witness :
    (lookupJob (mark_job_status
      (mark_job_status [("job1", demoPendingJob)] "job1"
        JobStatus.in_progress none none none "t1").jobs "job1"
      JobStatus.in_progress none none none "t2").jobs "job1").map
      Job.attempts = some (demoPendingJob.attempts + 2) ∧
    (lookupJob (mark_job_status [("job1", demoPendingJob)] "job1"
      JobStatus.in_progress none none none "t1").jobs "job1").map
      Job.start_time = some (some "t1") := by
  have h := mark_job_status_in_progress_twice [("job1", demoPendingJob)]
    "job1" "t1" "t2" demoPendingJob (by decide) (by decide)
  exact ⟨h.2.2.1, h.2.2.2.1.trans (by decide)⟩

/-- One resume step when the job id is present. -/
theorem resumeStep_found (now : String) (acc : List String × Jobs)
    (job jv : Job) (h : lookupJob acc.2 job.job_id = some jv) :
    resumeStep now acc job =
      (acc.1 ++ [job.job_id], setJob acc.2 job.job_id
        (applyMark jv JobStatus.pending none none none now)) := by
  unfold resumeStep
  rw [mark_job_status_found acc.2 job.job_id jv JobStatus.pending none none
    none now h]
  rfl

/-- One resume step when the job id is absent. -/
theorem resumeStep_missing (now : String) (acc : List String × Jobs)
    (job : Job) (h : lookupJob acc.2 job.job_id = none) :
    resumeStep now acc job = (acc.1, acc.2) := by
  unfold resumeStep mark_job_status
  rw [h]
  rfl

/-- The resume fold collects exactly the ids of the folded jobs (when all
of them are present) and preserves the key set. -/
theorem foldl_resumeStep_ids (now : String) (l : List Job)
    (acc1 : List String) (cur : Jobs)
    (hk : ∀ jb ∈ l, (lookupJob cur jb.job_id).isSome) :
    (l.foldl (resumeStep now) (acc1, cur)).1 = acc1 ++ l.map Job.job_id ∧
    (l.foldl (resumeStep now) (acc1, cur)).2.map Prod.fst =
      cur.map Prod.fst := by
  induction l generalizing acc1 cur with
  | nil => simp
  | cons jb rest ih =>
    obtain ⟨jv, hjv⟩ := Option.isSome_iff_exists.mp
      (hk jb (List.mem_cons_self jb rest))
    rw [List.foldl_cons, resumeStep_found now (acc1, cur) jb jv hjv]
    have hrest : ∀ x ∈ rest,
        (lookupJob (setJob cur jb.job_id
          (applyMark jv JobStatus.pending none none none now))
          x.job_id).isSome := by
      intro x hx
      rw [lookupJob_isSome_setJob]
      exact hk x (List.mem_cons_of_mem jb hx)
    have ihr := ih (acc1 ++ [jb.job_id]) (setJob cur jb.job_id
      (applyMark jv JobStatus.pending none none none now)) hrest
    refine ⟨?_, ?_⟩
    · rw [ihr.1]
      simp
    · rw [ihr.2, setJob_keys]

/-- The resume fold leaves every entry whose id is not among the folded
job ids untouched. -/
theorem foldl_resumeStep_untouched (now : String) (l : List Job)
    (acc1 : List String) (cur : Jobs) (id : String)
    (hne : ∀ jb ∈ l, jb.job_id ≠ id) :
    lookupJob (l.foldl (resumeStep now) (acc1, cur)).2 id =
      lookupJob cur id := by
  induction l generalizing acc1 cur with
  | nil => rfl
  | cons jb rest ih =>
    rw [List.foldl_cons]
    cases hl : lookupJob cur jb.job_id with
    | none =>
      rw [resumeStep_missing now (acc1, cur) jb hl]
      exact ih acc1 cur (fun x hx => hne x (List.mem_cons_of_mem jb hx))
    | some jv =>
      rw [resumeStep_found now (acc1, cur) jb jv hl]
      rw [ih (acc1 ++ [jb.job_id]) (setJob cur jb.job_id
        (applyMark jv JobStatus.pending none none none now))
        (fun x hx => hne x (List.mem_cons_of_mem jb hx))]
      exact lookupJob_setJob_ne cur id jb.job_id _
        (fun he => hne jb (List.mem_cons_self jb rest) he.symm)

/-- After the resume fold, a job whose id occurs exactly once among the
folded jobs holds the pending-marked version of its original record. -/
theorem foldl_resumeStep_marked (now : String) (l1 l2 : List Job)
    (jb : Job) (cur : Jobs) (acc1 : List String)
    (h1 : ∀ x ∈ l1, x.job_id ≠ jb.job_id)
    (h2 : ∀ x ∈ l2, x.job_id ≠ jb.job_id)
    (hcur : lookupJob cur jb.job_id = some jb) :
    lookupJob ((l1 ++ jb :: l2).foldl (resumeStep now) (acc1, cur)).2
      jb.job_id =
      some (applyMark jb JobStatus.pending none none none now) := by
  rw [List.foldl_append]
  have hmid : lookupJob (l1.foldl (resumeStep now) (acc1, cur)).2
      jb.job_id = some jb :=
    (foldl_resumeStep_untouched now l1 acc1 cur jb.job_id h1).trans hcur
  rw [List.foldl_cons,
    resumeStep_found now (l1.foldl (resumeStep now) (acc1, cur)) jb jb hmid]
  rw [foldl_resumeStep_untouched now l2 _ _ jb.job_id h2]
  exact lookupJob_setJob_self (l1.foldl (resumeStep now) (acc1, cur)).2
    jb.job_id _ (by rw [hmid]; rfl)

/-- Every selected failed job appears in the dictionary under its own id. -/
theorem get_failed_jobs_mem (jobs : Jobs)
    (hcons : ∀ p ∈ jobs, p.2.job_id = p.1) :
    ∀ jb ∈ get_failed_jobs jobs, (jb.job_id, jb) ∈ jobs := by
  intro jb hjb
  have hmem : jb ∈ jobs.map Prod.snd := List.mem_of_mem_filter hjb
  obtain ⟨p, hp, hpe⟩ := List.mem_map.mp hmem
  have hk := hcons p hp
  have hpair : p = (jb.job_id, jb) := by
    cases p with
    | mk a b =>
      simp only at hpe hk
      rw [hpe] at hk ⊢
      rw [hk]
  rw [hpair] at hp
  exact hp

/-- Every selected failed job is failed with attempts below its ceiling. -/
theorem get_failed_jobs_prop (jobs : Jobs) :
    ∀ jb ∈ get_failed_jobs jobs,
      jb.status = JobStatus.failed.value ∧
      jb.attempts < jb.max_attempts := by
  intro jb hjb
  have hf := List.of_mem_filter hjb
  simp only [Bool.and_eq_true, beq_iff_eq, decide_eq_true_eq] at hf
  exact hf

/-- The ids of the selected failed jobs are distinct when the dictionary
keys are. -/
theorem get_failed_jobs_ids_nodup (jobs : Jobs)
    (hkeys : (jobs.map Prod.fst).Nodup)
    (hcons : ∀ p ∈ jobs, p.2.job_id = p.1) :
    ((get_failed_jobs jobs).map Job.job_id).Nodup := by
  have hsub : (get_failed_jobs jobs).Sublist (jobs.map Prod.snd) :=
    List.filter_sublist _
  have hsub2 : ((get_failed_jobs jobs).map Job.job_id).Sublist
      ((jobs.map Prod.snd).map Job.job_id) := hsub.map Job.job_id
  have hmapeq : (jobs.map Prod.snd).map Job.job_id = jobs.map Prod.fst := by
    rw [List.map_map]
    exact List.map_congr_left (fun p hp => hcons p hp)
  rw [hmapeq] at hsub2
  exact hkeys.sublist hsub2

/-- Claim C4: `resume_failed_jobs` transitions back to pending exactly the
jobs whose status is failed and whose attempts are below their ceiling,
returning their ids in order; every failed job at its ceiling is excluded
from the returned list and its record, status included, is untouched. -/
theorem resume_failed_jobs_spec (jobs : Jobs) (now : String)
    (hkeys : (jobs.map Prod.fst).Nodup)
    (hcons : ∀ p ∈ jobs, p.2.job_id = p.1) :
    (resume_failed_jobs jobs now).1 =
      (get_failed_jobs jobs).map Job.job_id ∧
    (∀ jb ∈ get_failed_jobs jobs,
      (lookupJob (resume_failed_jobs jobs now).2 jb.job_id).map Job.status =
        some JobStatus.pending.value ∧
      (lookupJob (resume_failed_jobs jobs now).2 jb.job_id).map
        Job.attempts = some jb.attempts) ∧
    (∀ id j, lookupJob jobs id = some j →
      j.status = JobStatus.failed.value → j.max_attempts ≤ j.attempts →
      id ∉ (resume_failed_jobs jobs now).1 ∧
      lookupJob (resume_failed_jobs jobs now).2 id = some j) := by
  have hmemf := get_failed_jobs_mem jobs hcons
  have hsome : ∀ jb ∈ get_failed_jobs jobs,
      (lookupJob jobs jb.job_id).isSome := by
    intro jb hjb
    exact lookupJob_isSome_of_mem_keys jobs jb.job_id
      (List.mem_map.mpr ⟨(jb.job_id, jb), hmemf jb hjb, rfl⟩)
  have hidnd := get_failed_jobs_ids_nodup jobs hkeys hcons
  have hids : (resume_failed_jobs jobs now).1 =
      (get_failed_jobs jobs).map Job.job_id := by
    show ((get_failed_jobs jobs).foldl (resumeStep now) ([], jobs)).1 = _
    rw [(foldl_resumeStep_ids now (get_failed_jobs jobs) [] jobs hsome).1]
    rfl
  refine ⟨hids, ?_, ?_⟩
  · intro jb hjb
    obtain ⟨l1, l2, hsplit⟩ := List.append_of_mem hjb
    have hnd2 : ((l1 ++ jb :: l2).map Job.job_id).Nodup := by
      rw [← hsplit]
      exact hidnd
    rw [List.map_append, List.map_cons] at hnd2
    have hdisj := List.nodup_append.mp hnd2
    have h1 : ∀ x ∈ l1, x.job_id ≠ jb.job_id := by
      intro x hx he
      exact hdisj.2.2 (List.mem_map_of_mem Job.job_id hx)
        (he ▸ List.mem_cons_self jb.job_id (l2.map Job.job_id))
    have h2 : ∀ x ∈ l2, x.job_id ≠ jb.job_id := by
      intro x hx he
      have := List.nodup_cons.mp hdisj.2.1
      exact this.1 (he ▸ List.mem_map_of_mem Job.job_id hx)
    have hcur : lookupJob jobs jb.job_id = some jb :=
      lookupJob_of_mem_nodup jobs jb.job_id jb hkeys (hmemf jb hjb)
    have hfinal : lookupJob (resume_failed_jobs jobs now).2 jb.job_id =
        some (applyMark jb JobStatus.pending none none none now) := by
      show lookupJob ((get_failed_jobs jobs).foldl (resumeStep now)
        ([], jobs)).2 jb.job_id = _
      rw [hsplit]
      exact foldl_resumeStep_marked now l1 l2 jb jobs [] h1 h2 hcur
    rw [hfinal, applyMark_pending]
    exact ⟨rfl, rfl⟩
  · intro id j hlook hst hge
    have hnotin : ∀ jb ∈ get_failed_jobs jobs, jb.job_id ≠ id := by
      intro jb hjb heq
      have hmem := hmemf jb hjb
      rw [heq] at hmem
      have hl2 := lookupJob_of_mem_nodup jobs id jb hkeys hmem
      rw [hlook] at hl2
      have hjj : j = jb := Option.some.inj hl2
      have hprop := get_failed_jobs_prop jobs jb hjb
      rw [hjj] at hge
      omega
    constructor
    · intro hin
      rw [hids] at hin
      obtain ⟨jb, hjb, hje⟩ := List.mem_map.mp hin
      exact hnotin jb hjb hje
    · show lookupJob ((get_failed_jobs jobs).foldl (resumeStep now)
        ([], jobs)).2 id = some j
      rw [foldl_resumeStep_untouched now (get_failed_jobs jobs) [] jobs id
        hnotin]
      exact hlook

/-- Claim C4 witness: one retryable failed job is resumed, the exhausted
one is excluded and keeps its record. -/
theorem resume_failed_jobs_spec_witness :
    (resume_failed_jobs demoJobs "t7").1 =
      (get_failed_jobs demoJobs).map Job.job_id ∧
    "b" ∉ (resume_failed_jobs demoJobs "t7").1 ∧
    lookupJob (resume_failed_jobs demoJobs "t7").2 "b" =
      some demoFailedExhausted := by
  have h := resume_failed_jobs_spec demoJobs "t7" (by decide) (by decide)
  have h3 := h.2.2 "b" demoFailedExhausted (by decide) (by decide)
    (by decide)
  exact ⟨h.1, h3.1, h3.2⟩
